import Mathlib

/-!
Verification of `python/tensorstore/future.cc`: the Promise/Future result
channel exposed to Python, its interruptible blocking wait, callback
dispatch, deadline computation, and the intrusive cancel-callback list.

Machine integers do not matter here; Python object identities are modelled
as `Nat`, payload values and error payloads as `Nat`, instants of time as
`ℚ` (seconds since the Unix epoch) extended with an infinite future.
-/

namespace TensorstoreFuture

/-! ## The shared result slot

Modelled from the spec: the shared result cell created by
`PromiseFuturePair<PythonValueOrException>::Make` is declared in
`tensorstore/util/future.h`, which is not part of this repository's
sources.  Per the spec, "ResultSlot<T>: holds exactly one of
{unset, value, error, cancelled}. Written at most once. Transition
unset→{value|error|cancelled} is irreversible."
-/

/-- The four states of the shared result slot.  `value`/`error` carry the
Python object written by `Promise.set_result`/`Promise.set_exception`. -/
inductive ResultSlot where
  | unset
  | value (v : Nat)
  | error (e : Nat)
  | cancelled
deriving DecidableEq, Repr

/-- A producer write: `Promise.set_result` or `Promise.set_exception`
(both funnel into `Promise::SetResult` on the C++ side). -/
inductive WriteOp where
  | setResult (v : Nat)
  | setException (e : Nat)
deriving DecidableEq, Repr

/-- Modelled from the spec: applying one producer write to the slot.
"only the first write wins — subsequent writes are no-ops". -/
def applyWrite (s : ResultSlot) (w : WriteOp) : ResultSlot :=
  match s with
  | ResultSlot.unset =>
    match w with
    | WriteOp.setResult v => ResultSlot.value v
    | WriteOp.setException e => ResultSlot.error e
  | _ => s

/-- Applying a sequence of producer writes in order. -/
def applyWrites (s : ResultSlot) (ws : List WriteOp) : ResultSlot :=
  List.foldl applyWrite s ws

/-- `Future.done()`: true iff the slot is no longer `unset`. -/
def done (s : ResultSlot) : Bool :=
  match s with
  | ResultSlot.unset => false
  | _ => true

/-- `Future.cancelled()`: true iff the slot is `cancelled`. -/
def cancelledQ (s : ResultSlot) : Bool :=
  match s with
  | ResultSlot.cancelled => true
  | _ => false

theorem applyWrite_terminal (s : ResultSlot) (w : WriteOp)
    (h : s ≠ ResultSlot.unset) : applyWrite s w = s := by
  cases s with
  | unset => exact absurd rfl h
  | value v => rfl
  | error e => rfl
  | cancelled => rfl

theorem applyWrites_terminal (s : ResultSlot) (ws : List WriteOp)
    (h : s ≠ ResultSlot.unset) : applyWrites s ws = s := by
  induction ws with
  | nil => rfl
  | cons w ws ih =>
    unfold applyWrites at *
    rw [List.foldl_cons, applyWrite_terminal s w h]
    exact ih

theorem applyWrite_unset_ne (w : WriteOp) :
    applyWrite ResultSlot.unset w ≠ ResultSlot.unset := by
  cases w <;> simp [applyWrite]

/-- C1: only the first `set_result`/`set_exception` takes effect: a write
to any terminal slot (value, error or cancelled) is a no-op, a whole
write sequence starting from `unset` is determined by its first element
alone, and `done()` reflects (only) that first write. -/
theorem promise_first_write_wins (w : WriteOp) (ws : List WriteOp)
    (v e : Nat) :
    applyWrite (ResultSlot.value v) w = ResultSlot.value v ∧
    applyWrite (ResultSlot.error e) w = ResultSlot.error e ∧
    applyWrite ResultSlot.cancelled w = ResultSlot.cancelled ∧
    applyWrites ResultSlot.unset (w :: ws) = applyWrite ResultSlot.unset w ∧
    done (applyWrites ResultSlot.unset (w :: ws)) = true := by
  have hfirst : applyWrites ResultSlot.unset (w :: ws)
      = applyWrite ResultSlot.unset w := by
    unfold applyWrites
    rw [List.foldl_cons]
    exact applyWrites_terminal _ ws (applyWrite_unset_ne w)
  refine ⟨rfl, rfl, rfl, hfirst, ?_⟩
  rw [hfirst]
  cases w <;> rfl

/-! ## The interruptible wait loop

`InterruptibleWaitImpl` (future.cc): creates a `ScopedEvent`, registers
a listener and (when a Python future is given) a cancel callback, then
loops: wait on the event with the given deadline; on `kSuccess` check
`python_future->cancelled()` and either throw `CancelledError` or return;
on `kTimeout` throw `TimeoutError`; on `kInterrupt` run
`PyErr_CheckSignals()` and either propagate the pending interrupt or loop
again.  The environment of each iteration is modelled as the pair of the
`ScopedEvent::Wait` result and the `PyErr_CheckSignals` verdict (true iff
a real interrupt is pending); `futureCancelled` is `Option.none` when
`python_future == nullptr`, else the value `cancelled()` reads. -/

/-- The three outcomes of `ScopedEvent::Wait` (future.cc). -/
inductive ScopedEventWaitResult where
  | kSuccess
  | kInterrupt
  | kTimeout
deriving DecidableEq, Repr

/-- How one call to `InterruptibleWaitImpl` ends. -/
inductive WaitOutcome where
  | ok
  | cancelledError
  | timeoutError
  | interruptError
deriving DecidableEq, Repr

/-- The loop of `InterruptibleWaitImpl` over a finite trace of iteration
environments; `Option.none` means the trace was exhausted with the loop
still running. -/
def InterruptibleWaitImpl (futureCancelled : Option Bool) :
    List (ScopedEventWaitResult × Bool) → Option WaitOutcome
  | [] => Option.none
  | (w, pending) :: rest =>
    match w with
    | ScopedEventWaitResult.kSuccess =>
      some (if futureCancelled = some true then WaitOutcome.cancelledError
            else WaitOutcome.ok)
    | ScopedEventWaitResult.kTimeout => some WaitOutcome.timeoutError
    | ScopedEventWaitResult.kInterrupt =>
      if pending then some WaitOutcome.interruptError
      else InterruptibleWaitImpl futureCancelled rest

/-- C2: one step of the interruptible wait loop: `kTimeout` fails with a
timeout error; `kSuccess` fails with a cancellation error iff the
associated future reports cancelled and otherwise returns normally;
`kInterrupt` propagates a pending real interrupt as a failure and
otherwise loops again (spurious wake). -/
theorem interruptible_wait_step (fc : Option Bool) (pending : Bool)
    (rest : List (ScopedEventWaitResult × Bool)) :
    InterruptibleWaitImpl fc ((ScopedEventWaitResult.kTimeout, pending) :: rest)
      = some WaitOutcome.timeoutError ∧
    InterruptibleWaitImpl fc ((ScopedEventWaitResult.kSuccess, pending) :: rest)
      = some (if fc = some true then WaitOutcome.cancelledError
              else WaitOutcome.ok) ∧
    InterruptibleWaitImpl fc ((ScopedEventWaitResult.kInterrupt, true) :: rest)
      = some WaitOutcome.interruptError ∧
    InterruptibleWaitImpl fc ((ScopedEventWaitResult.kInterrupt, false) :: rest)
      = InterruptibleWaitImpl fc rest := by
  refine ⟨rfl, rfl, rfl, rfl⟩

/-! ## Wait deadline computation

`GetWaitDeadline` (future.cc): starting from `absl::InfiniteFuture()`, an
explicit `deadline` argument replaces it with `UnixEpoch() + Seconds(d)`,
and a `timeout` argument then takes the minimum with `Now() + Seconds(t)`.
`absl::Time` is modelled as rational seconds since the Unix epoch plus an
infinite-future point. -/

/-- `absl::Time`: a finite instant (seconds since the Unix epoch) or
`absl::InfiniteFuture()`. -/
inductive ATime where
  | finite (t : ℚ)
  | infiniteFuture
deriving DecidableEq, Repr

/-- `std::min` on `absl::Time`, with the infinite future as top. -/
def ATime.minT : ATime → ATime → ATime
  | ATime.infiniteFuture, b => b
  | a, ATime.infiniteFuture => a
  | ATime.finite x, ATime.finite y => ATime.finite (min x y)

/-- `absl::UnixEpoch()`. -/
def unixEpoch : ATime := ATime.finite 0

/-- `t + absl::Seconds(s)`. -/
def addSeconds : ATime → ℚ → ATime
  | ATime.finite t, s => ATime.finite (t + s)
  | ATime.infiniteFuture, _ => ATime.infiniteFuture

/-- `GetWaitDeadline(timeout, deadline)` (future.cc), with `now` the value
of `absl::Now()` at the call. -/
def GetWaitDeadline (now : ℚ) (timeout deadline : Option ℚ) : ATime :=
  let deadline_time : ATime :=
    match deadline with
    | some d => addSeconds unixEpoch d
    | Option.none => ATime.infiniteFuture
  match timeout with
  | some t => ATime.minT deadline_time (addSeconds (ATime.finite now) t)
  | Option.none => deadline_time

/-- C9: the effective wait bound is the infinite future with no arguments,
epoch + deadline with only `deadline`, now + timeout with only `timeout`,
and the earlier (minimum) of the two instants when both are given. -/
theorem get_wait_deadline_cases (now t d : ℚ) :
    GetWaitDeadline now Option.none Option.none = ATime.infiniteFuture ∧
    GetWaitDeadline now Option.none (some d) = ATime.finite d ∧
    GetWaitDeadline now (some t) Option.none = ATime.finite (now + t) ∧
    GetWaitDeadline now (some t) (some d) = ATime.finite (min d (now + t)) := by
  refine ⟨rfl, ?_, rfl, ?_⟩
  · simp [GetWaitDeadline, addSeconds, unixEpoch]
  · simp [GetWaitDeadline, addSeconds, unixEpoch, ATime.minT]

/-! ## Removing done callbacks

`PythonFutureBase::remove_done_callback` (future.cc): `std::remove_if`
over `callbacks_` keeps, in order, the handles whose pointer differs from
`callback.ptr()`; `num_removed` is the number of matching entries erased;
if the list becomes empty, `registration_.Unregister()` is called.
Callback identities (`PyObject*` pointers) are modelled as `Nat`; the
low-level `FutureCallbackRegistration` as a Boolean "still registered"
flag. -/

/-- The callback-related state of a `PythonFutureBase`: the `callbacks_`
vector (by pointer identity) and whether the low-level listener
`registration_` is still registered. -/
structure DoneCallbackState where
  callbacks : List Nat
  registered : Bool
deriving DecidableEq, Repr

/-- `PythonFutureBase::remove_done_callback` (future.cc): returns the new
state and `num_removed`. -/
def remove_done_callback (st : DoneCallbackState) (cb : Nat) :
    DoneCallbackState × Nat :=
  let remaining := st.callbacks.filter (fun h => h ≠ cb)
  let num_removed := st.callbacks.length - remaining.length
  ({ callbacks := remaining,
     registered := if remaining.isEmpty then false else st.registered },
   num_removed)

theorem filter_ne_add_countP (l : List Nat) (cb : Nat) :
    (l.filter (fun h => h ≠ cb)).length + l.countP (fun h => h = cb)
      = l.length := by
  induction l with
  | nil => rfl
  | cons a l ih =>
    by_cases hacb : a = cb <;>
      simp [List.filter_cons, List.countP_cons, hacb] at ih ⊢ <;> omega

theorem filter_ne_length_sub (l : List Nat) (cb : Nat) :
    l.length - (l.filter (fun h => h ≠ cb)).length
      = l.countP (fun h => h = cb) := by
  have h := filter_ne_add_countP l cb
  omega

/-- C5: `remove_done_callback` removes exactly the identity-matching
callbacks (keeping the others, in order), returns the number removed, is
idempotent — a second removal of the same callback returns `0`, without
raising, and leaves the list unchanged — and the low-level listener stays
registered exactly until the callback list becomes empty, at which point
it is unregistered. -/
theorem remove_done_callback_spec (st : DoneCallbackState) (cb : Nat) :
    ((remove_done_callback st cb).1.callbacks
        = st.callbacks.filter (fun h => h ≠ cb)) ∧
    ((remove_done_callback st cb).2
        = st.callbacks.countP (fun h => h = cb)) ∧
    ((remove_done_callback (remove_done_callback st cb).1 cb).2 = 0) ∧
    ((remove_done_callback (remove_done_callback st cb).1 cb).1.callbacks
        = (remove_done_callback st cb).1.callbacks) ∧
    ((remove_done_callback st cb).1.registered
        = if ((remove_done_callback st cb).1.callbacks).isEmpty then false
          else st.registered) := by
  have h2 : (remove_done_callback st cb).2
      = st.callbacks.countP (fun h => h = cb) :=
    filter_ne_length_sub st.callbacks cb
  have hfix : (st.callbacks.filter (fun h => h ≠ cb)).filter
      (fun h => h ≠ cb) = st.callbacks.filter (fun h => h ≠ cb) := by
    apply List.filter_eq_self.mpr
    intro x hx
    exact (List.mem_filter.mp hx).2
  have hzero : ((st.callbacks.filter (fun h => h ≠ cb)).countP
      (fun h => h = cb)) = 0 := by
    apply List.countP_eq_zero.mpr
    intro x hx
    have := (List.mem_filter.mp hx).2
    simpa using this
  refine ⟨rfl, h2, ?_, ?_, rfl⟩
  · rw [show (remove_done_callback (remove_done_callback st cb).1 cb).2
        = ((st.callbacks.filter (fun h => h ≠ cb)).countP
            (fun h => h = cb)) from
      filter_ne_length_sub _ cb]
    exact hzero
  · exact hfix

/-! ## `exception()` and the cancelled error

`GetCancelledError` (future.cc) builds and *returns* an
`asyncio.CancelledError` instance.  `Future.exception(deadline)` itself is
declared in `python/tensorstore/future.h`, which is not part of this
repository's sources; per the spec it performs the same wait as
`result(deadline)` "but returns the error (or none) instead of raising".
Python objects are modelled by the `PyObject` type below. -/

/-- A Python object as observed by the bindings: `None`, a
`CancelledError` instance, an error object, or a plain value. -/
inductive PyObject where
  | none
  | cancelledErrorInstance
  | errorInstance (e : Nat)
  | valueObj (v : Nat)
deriving DecidableEq, Repr

/-- `GetCancelledError` (future.cc): constructs an
`asyncio.CancelledError` instance (with a `None` argument) and returns
it. -/
def GetCancelledError : PyObject := PyObject.cancelledErrorInstance

/-- Modelled from the spec: `Future.exception(deadline)` (declared in
`python/tensorstore/future.h`, not in the sources) once the wait has
finished with the slot in the given state; `Except.error` would mean an
exception is raised to the caller, `Except.ok` that the object is
returned.  `Option.none` covers the still-`unset` slot, on which the call
keeps blocking. -/
def exceptionMethod (s : ResultSlot) : Option (Except PyObject PyObject) :=
  match s with
  | ResultSlot.unset => Option.none
  | ResultSlot.cancelled => some (Except.ok GetCancelledError)
  | ResultSlot.error e => some (Except.ok (PyObject.errorInstance e))
  | ResultSlot.value _ => some (Except.ok PyObject.none)

/-- C7: on a cancelled future, `exception()` *returns* (does not raise) a
`CancelledError` instance; on an errored future it returns the stored
error; on a successful future it returns `None`. -/
theorem exception_method_cases (e v : Nat) :
    exceptionMethod ResultSlot.cancelled
      = some (Except.ok PyObject.cancelledErrorInstance) ∧
    GetCancelledError = PyObject.cancelledErrorInstance ∧
    exceptionMethod (ResultSlot.error e)
      = some (Except.ok (PyObject.errorInstance e)) ∧
    exceptionMethod (ResultSlot.value v)
      = some (Except.ok PyObject.none) := by
  refine ⟨rfl, rfl, rfl, rfl⟩

/-! ## Done-callback registration and dispatch

`PythonFutureBase::RunCallbacks` (future.cc) moves the `callbacks_`
vector out and invokes every entry, in order, with the Python future as
argument.  `add_done_callback` itself is declared in
`python/tensorstore/future.h`, which is not part of this repository's
sources; per the spec, "add(callback): appends; if the slot is already
terminal, invoke immediately instead of storing".  Callbacks are again
identified by `Nat`. -/

/-- The state shared by one Promise/Future pair that the callback
machinery sees: the result slot, the `callbacks_` vector and the
intrusive cancel-callback registry (abstracted to its node sequence). -/
structure FutureState where
  slot : ResultSlot
  callbacks : List Nat
  cancelCallbacks : List Nat
deriving DecidableEq, Repr

/-- Modelled from the spec: `add_done_callback` (declared in
`python/tensorstore/future.h`, not in the sources).  Returns the new
state and the callbacks invoked immediately and synchronously by the
call itself. -/
def add_done_callback (st : FutureState) (cb : Nat) :
    FutureState × List Nat :=
  if done st.slot then (st, [cb])
  else ({ st with callbacks := st.callbacks ++ [cb] }, [])

/-- `PythonFutureBase::RunCallbacks` (future.cc): moves the callback list
out, then invokes each entry in order; returns the new state and the
invocation order. -/
def RunCallbacks (st : FutureState) : FutureState × List Nat :=
  ({ st with callbacks := [] }, st.callbacks)

/-- Scenario driver: a sequence of `add_done_callback` calls, threading
the state and concatenating the immediate invocations. -/
def addAll : FutureState → List Nat → FutureState × List Nat
  | st, [] => (st, [])
  | st, cb :: cbs =>
    let r := add_done_callback st cb
    let rest := addAll r.1 cbs
    (rest.1, r.2 ++ rest.2)

/-- Completing the channel with a producer write and running the single
done-callback dispatch that it triggers. -/
def completeAndDispatch (st : FutureState) (w : WriteOp) :
    FutureState × List Nat :=
  RunCallbacks { st with slot := applyWrite st.slot w }

/-- A fresh Promise/Future pair: unset slot, no callbacks. -/
def initialState : FutureState := ⟨ResultSlot.unset, [], []⟩

/-- Callbacks invoked while registering `pre` on the fresh pair. -/
def preAddEvents (pre : List Nat) : List Nat :=
  (addAll initialState pre).2

/-- Callbacks invoked by the dispatch after the completing write. -/
def preDispatchEvents (pre : List Nat) (w : WriteOp) : List Nat :=
  (completeAndDispatch (addAll initialState pre).1 w).2

/-- The state after registering `pre` on the fresh pair. -/
def preAddState (pre : List Nat) : FutureState :=
  (addAll initialState pre).1

/-- All invocations of the scenario: register `pre`, complete with `w`,
then register `post`. -/
def scenarioEvents (pre post : List Nat) (w : WriteOp) : List Nat :=
  preAddEvents pre ++ preDispatchEvents pre w
    ++ (addAll (completeAndDispatch (preAddState pre) w).1 post).2

theorem add_done_callback_pending (st : FutureState) (cb : Nat)
    (h : done st.slot = false) :
    add_done_callback st cb
      = ({ st with callbacks := st.callbacks ++ [cb] }, []) := by
  simp [add_done_callback, h]

theorem add_done_callback_done (st : FutureState) (cb : Nat)
    (h : done st.slot = true) :
    add_done_callback st cb = (st, [cb]) := by
  simp [add_done_callback, h]

theorem addAll_pending (pre : List Nat) (st : FutureState)
    (h : done st.slot = false) :
    addAll st pre = ({ st with callbacks := st.callbacks ++ pre }, []) := by
  induction pre generalizing st with
  | nil => simp [addAll]
  | cons cb cbs ih =>
    simp only [addAll, add_done_callback_pending st cb h]
    rw [ih { st with callbacks := st.callbacks ++ [cb] } h]
    simp

theorem addAll_done (post : List Nat) (st : FutureState)
    (h : done st.slot = true) :
    addAll st post = (st, post) := by
  induction post generalizing st with
  | nil => rfl
  | cons cb cbs ih =>
    simp only [addAll, add_done_callback_done st cb h]
    rw [ih st h]
    rfl

theorem done_applyWrite_unset (w : WriteOp) :
    done (applyWrite ResultSlot.unset w) = true := by
  cases w <;> rfl

theorem preAddState_eq (pre : List Nat) :
    preAddState pre = ⟨ResultSlot.unset, pre, []⟩ := by
  unfold preAddState
  rw [addAll_pending pre initialState rfl]
  rfl

theorem completeAndDispatch_eq (st : FutureState) (w : WriteOp) :
    completeAndDispatch st w
      = (⟨applyWrite st.slot w, [], st.cancelCallbacks⟩, st.callbacks) := rfl

/-- C3: in the scenario "register `pre`, complete, register `post`",
registration before completion invokes nothing, the single dispatch after
completion invokes exactly the pre-registered callbacks in registration
order, a callback added to an already-completed future (value, error or
cancelled slot) is invoked immediately and synchronously instead of being
queued, and overall every registered callback is invoked exactly once. -/
theorem done_callbacks_exactly_once (pre post : List Nat) (w : WriteOp)
    (v e cb : Nat) (cbs ccbs : List Nat) :
    preAddEvents pre = [] ∧
    preDispatchEvents pre w = pre ∧
    add_done_callback ⟨ResultSlot.value v, cbs, ccbs⟩ cb
      = (⟨ResultSlot.value v, cbs, ccbs⟩, [cb]) ∧
    add_done_callback ⟨ResultSlot.error e, cbs, ccbs⟩ cb
      = (⟨ResultSlot.error e, cbs, ccbs⟩, [cb]) ∧
    add_done_callback ⟨ResultSlot.cancelled, cbs, ccbs⟩ cb
      = (⟨ResultSlot.cancelled, cbs, ccbs⟩, [cb]) ∧
    scenarioEvents pre post w = pre ++ post := by
  have h1 := addAll_pending pre initialState rfl
  have hadd : preAddEvents pre = [] := by
    unfold preAddEvents
    rw [h1]
  have hdisp : preDispatchEvents pre w = pre := by
    show (completeAndDispatch (preAddState pre) w).2 = pre
    rw [preAddState_eq, completeAndDispatch_eq]
  refine ⟨hadd, hdisp, add_done_callback_done _ cb rfl,
    add_done_callback_done _ cb rfl, add_done_callback_done _ cb rfl, ?_⟩
  unfold scenarioEvents
  rw [hadd, hdisp, preAddState_eq, completeAndDispatch_eq]
  simp [addAll_done post ⟨applyWrite ResultSlot.unset w, [], []⟩
    (done_applyWrite_unset w)]

/-! ## Cancellation

`PythonFutureBase::cancel()` is declared in
`python/tensorstore/future.h`, which is not part of this repository's
sources; per the spec, "`Future.cancel()`: if Pending, transitions to
Cancelled, fires CancelCallbackList, then fires DoneCallbackList" and on
an already-terminal future it is a no-op.  The firing of each list uses
the in-source `RunCancelCallbacks` (modelled pointer-exactly below for
C10; abstracted to its node sequence here) and `RunCallbacks`. -/

/-- One observable callback invocation during cancellation. -/
inductive CbEvent where
  | cancelCb (id : Nat)
  | doneCb (id : Nat)
deriving DecidableEq, Repr

/-- Modelled from the spec: `Future.cancel()` (declared in
`python/tensorstore/future.h`, not in the sources).  Returns the new
state and the invoked callbacks in order. -/
def cancel (st : FutureState) : FutureState × List CbEvent :=
  if done st.slot then (st, [])
  else
    let st2 : FutureState := { st with slot := ResultSlot.cancelled }
    let r := RunCallbacks st2
    (r.1, st2.cancelCallbacks.map CbEvent.cancelCb
            ++ r.2.map CbEvent.doneCb)

/-- C4: `cancel()` on a pending future transitions the slot to
`cancelled` and fires every cancel-callback exactly once (in registry
order) before the done-callbacks; `cancel()` on an already-terminal
future (value, error or cancelled slot) is a no-op; and on a slot
reached by any terminal value/error write sequence, `cancel()` fires no
cancel-callback (nor any other callback) at all. -/
theorem cancel_spec (cbs ccbs : List Nat) (v e : Nat) (w : WriteOp)
    (ws : List WriteOp) :
    (cancel ⟨ResultSlot.unset, cbs, ccbs⟩).1.slot = ResultSlot.cancelled ∧
    (cancel ⟨ResultSlot.unset, cbs, ccbs⟩).2
      = ccbs.map CbEvent.cancelCb ++ cbs.map CbEvent.doneCb ∧
    cancel ⟨ResultSlot.value v, cbs, ccbs⟩
      = (⟨ResultSlot.value v, cbs, ccbs⟩, []) ∧
    cancel ⟨ResultSlot.error e, cbs, ccbs⟩
      = (⟨ResultSlot.error e, cbs, ccbs⟩, []) ∧
    cancel ⟨ResultSlot.cancelled, cbs, ccbs⟩
      = (⟨ResultSlot.cancelled, cbs, ccbs⟩, []) ∧
    (cancel ⟨applyWrites (applyWrite ResultSlot.unset w) ws,
        cbs, ccbs⟩).2 = [] := by
  have hdone : done (applyWrites (applyWrite ResultSlot.unset w) ws)
      = true := by
    rw [applyWrites_terminal _ ws (applyWrite_unset_ne w)]
    exact done_applyWrite_unset w
  refine ⟨?_, ?_, ?_, ?_, ?_, ?_⟩
  · simp [cancel, done, RunCallbacks]
  · simp [cancel, done, RunCallbacks]
  · simp [cancel, done]
  · simp [cancel, done]
  · simp [cancel, done]
  · simp [cancel, hdone]

/-! ## Exception isolation during done-callback dispatch

`PythonFutureBase::RunCallbacks` (future.cc) invokes each callback inside
a `try` whose handlers catch `pybind11::error_already_set` (restored,
written as unraisable, then cleared) and any other exception (logged).
The loop therefore continues with the next callback, and the function
never touches the stored result.  A callback is abstracted to its
behaviour: return normally, raise a Python error, or throw anything
else. -/

/-- How a single done-callback behaves when invoked. -/
inductive CbBehavior where
  | ok
  | pyError
  | otherError
deriving DecidableEq, Repr

/-- Observable effects of the dispatch loop: an invocation of callback
number `i`, or the logging performed by one of the two catch handlers. -/
inductive DispatchEvent where
  | invoked (i : Nat) (r : CbBehavior)
  | loggedUnraisable (i : Nat)
  | loggedUnexpected (i : Nat)
deriving DecidableEq, Repr

/-- Channel state seen by `RunCallbacks`: the stored result and the
callbacks with their behaviours. -/
structure DispatchState where
  slot : ResultSlot
  callbacks : List CbBehavior
deriving DecidableEq, Repr

/-- One iteration of the dispatch loop: the invocation plus whatever the
catch handlers log; the loop always proceeds afterwards. -/
def runOne (i : Nat) (r : CbBehavior) : List DispatchEvent :=
  match r with
  | CbBehavior.ok => [DispatchEvent.invoked i CbBehavior.ok]
  | CbBehavior.pyError =>
    [DispatchEvent.invoked i CbBehavior.pyError,
     DispatchEvent.loggedUnraisable i]
  | CbBehavior.otherError =>
    [DispatchEvent.invoked i CbBehavior.otherError,
     DispatchEvent.loggedUnexpected i]

/-- The dispatch loop over the moved-out callback list, numbering
callbacks from `i`. -/
def dispatchFrom (i : Nat) : List CbBehavior → List DispatchEvent
  | [] => []
  | r :: rest => runOne i r ++ dispatchFrom (i + 1) rest

/-- `PythonFutureBase::RunCallbacks` (future.cc) with callback behaviours
made explicit: moves `callbacks_` out, dispatches each entry, leaves the
slot alone. -/
def RunCallbacksDispatch (st : DispatchState) :
    DispatchState × List DispatchEvent :=
  ({ slot := st.slot, callbacks := [] }, dispatchFrom 0 st.callbacks)

/-- The callbacks actually invoked, in order, by a dispatch trace. -/
def invokedIndices (evs : List DispatchEvent) : List Nat :=
  evs.filterMap (fun e =>
    match e with
    | DispatchEvent.invoked i _ => some i
    | _ => Option.none)

theorem invokedIndices_runOne (i : Nat) (r : CbBehavior) :
    invokedIndices (runOne i r) = [i] := by
  cases r <;> rfl

theorem invokedIndices_append (a b : List DispatchEvent) :
    invokedIndices (a ++ b) = invokedIndices a ++ invokedIndices b := by
  unfold invokedIndices
  exact List.filterMap_append a b _

theorem invokedIndices_dispatchFrom (l : List CbBehavior) (i : Nat) :
    invokedIndices (dispatchFrom i l) = List.range' i l.length := by
  induction l generalizing i with
  | nil => rfl
  | cons r rest ih =>
    show invokedIndices (runOne i r ++ dispatchFrom (i + 1) rest)
        = List.range' i (rest.length + 1)
    rw [invokedIndices_append, invokedIndices_runOne, ih (i + 1),
      List.range'_succ]
    rfl

/-- C6: during done-callback dispatch every callback is invoked exactly
once, in order, regardless of which callbacks raise — an exception is
caught (and logged) without stopping the remaining callbacks — and the
stored result is unchanged by the dispatch. -/
theorem run_callbacks_isolation (st : DispatchState) :
    (RunCallbacksDispatch st).1.slot = st.slot ∧
    invokedIndices (RunCallbacksDispatch st).2
      = List.range st.callbacks.length := by
  refine ⟨rfl, ?_⟩
  show invokedIndices (dispatchFrom 0 st.callbacks)
      = List.range st.callbacks.length
  rw [invokedIndices_dispatchFrom, List.range_eq_range']

/-! ## The event-loop bridge

`PythonFutureBase::get_await_result` (future.cc) registers a done
callback on the tensorstore future whose body calls
`loop.call_soon_threadsafe(closure, source_future, awaitable_future)`:
completion of the host `asyncio` awaitable happens only inside the
closure, which the loop runs on its own thread.  The closure first
returns if `awaitable_future.done()`, then cancels the awaitable if the
source is cancelled, sets the source's exception if there is one, and
otherwise sets the source's result. -/

/-- The state of the host `asyncio` awaitable future. -/
inductive AwaitableState where
  | pending
  | cancelled
  | excSet (e : Nat)
  | resultSet (v : Nat)
deriving DecidableEq, Repr

/-- `awaitable_future.done()`. -/
def awaitableDone (a : AwaitableState) : Bool :=
  match a with
  | AwaitableState.pending => false
  | _ => true

/-- The closure that `get_await_result`'s done-callback schedules via
`loop.call_soon_threadsafe` (future.cc).  The `.unset` source arm cannot
be reached because the done-callback fires only once the slot is
terminal; it is modelled as leaving the awaitable untouched (the
closure's `exception()` call would simply keep blocking). -/
def scheduledCompletion (source : ResultSlot) (aw : AwaitableState) :
    AwaitableState :=
  if awaitableDone aw then aw
  else
    match source with
    | ResultSlot.cancelled => AwaitableState.cancelled
    | ResultSlot.error e => AwaitableState.excSet e
    | ResultSlot.value v => AwaitableState.resultSet v
    | ResultSlot.unset => aw

/-- C8: the scheduled closure maps the source state onto the host
awaitable — cancelled source cancels it, errored source sets the error,
successful source sets the value — and when the awaitable is already done
the closure returns without modifying it, in every combination. -/
theorem get_await_result_completion (s : ResultSlot) (e v : Nat) :
    scheduledCompletion ResultSlot.cancelled AwaitableState.pending
      = AwaitableState.cancelled ∧
    scheduledCompletion (ResultSlot.error e) AwaitableState.pending
      = AwaitableState.excSet e ∧
    scheduledCompletion (ResultSlot.value v) AwaitableState.pending
      = AwaitableState.resultSet v ∧
    scheduledCompletion s AwaitableState.cancelled
      = AwaitableState.cancelled ∧
    scheduledCompletion s (AwaitableState.excSet e)
      = AwaitableState.excSet e ∧
    scheduledCompletion s (AwaitableState.resultSet v)
      = AwaitableState.resultSet v := by
  refine ⟨rfl, rfl, rfl, rfl, rfl, rfl⟩

/-! ## The intrusive cancel-callback list traversal

`PythonFutureBase::RunCancelCallbacks` (future.cc):

    for (CancelCallbackBase* callback = cancel_callbacks_.next;
         callback != &cancel_callbacks_;) {
      auto* next = callback->next;
      static_cast<CancelCallback*>(callback)->callback();
      callback = next;
    }

Node addresses are `Nat`, with `0` standing for the list head
`cancel_callbacks_` itself.  A `CancelCallback`'s destructor removes its
node via `intrusive_linked_list::Remove` (prev->next = next;
next->prev = prev); a callback that destroys its own registration during
its invocation therefore unlinks its own node mid-traversal, which is the
situation the saved `next` pointer protects against. -/

/-- The pointer fields of the intrusive doubly linked cancel-callback
list, indexed by node address (`0` is the sentinel head). -/
structure IntrusiveList where
  next : Nat → Nat
  prev : Nat → Nat

/-- `intrusive_linked_list::Remove` applied to node `n`. -/
def unlink (s : IntrusiveList) (n : Nat) : IntrusiveList :=
  { next := fun m => if m = s.prev n then s.next n else s.next m,
    prev := fun m => if m = s.next n then s.prev n else s.prev m }

/-- The effect of invoking the cancel-callback of node `n`: when
`u n = true` the callback unlinks its own registration node (the
`CancelCallback` destructor runs inside the invocation), otherwise the
pointer structure is untouched. -/
def applyCancelCb (u : Nat → Bool) (s : IntrusiveList) (n : Nat) :
    IntrusiveList :=
  if u n then unlink s n else s

/-- The loop of `RunCancelCallbacks`: the `next` pointer of the current
node is read *before* the invocation, and the loop continues at that
saved address.  `fuel` bounds the number of iterations; the returned list
is the invocation order. -/
def RunCancelCallbacksLoop (u : Nat → Bool) :
    Nat → IntrusiveList → Nat → List Nat
  | 0, _, _ => []
  | fuel + 1, s, cb =>
    if cb = 0 then []
    else
      let nxt := s.next cb
      cb :: RunCancelCallbacksLoop u fuel (applyCancelCb u s cb) nxt

/-- `PythonFutureBase::RunCancelCallbacks` (future.cc): the traversal
starts at `cancel_callbacks_.next`. -/
def RunCancelCallbacks (u : Nat → Bool) (fuel : Nat) (s : IntrusiveList) :
    List Nat :=
  RunCancelCallbacksLoop u fuel s (s.next 0)

/-- The `next` pointers thread the nodes of `R` in order, ending back at
the sentinel. -/
def nextChain (s : IntrusiveList) : List Nat → Prop
  | [] => True
  | [a] => s.next a = 0
  | a :: b :: rest => s.next a = b ∧ nextChain s (b :: rest)

/-- Each non-head node's `prev` pointer names its predecessor in `R`. -/
def prevPairs (s : IntrusiveList) : List Nat → Prop
  | [] => True
  | [_] => True
  | a :: b :: rest => s.prev b = a ∧ prevPairs s (b :: rest)

/-- The head node's `prev` pointer points outside the remaining nodes
(at the sentinel or at an already-visited node). -/
def headPrevOutside (s : IntrusiveList) : List Nat → Prop
  | [] => True
  | a :: rest => s.prev a ∉ a :: rest

/-- The loop invariant: the still-to-be-visited nodes `R` are distinct,
do not contain the sentinel, are threaded in order by `next`, and their
`prev` pointers are consistent. -/
def ListSeg (s : IntrusiveList) (R : List Nat) : Prop :=
  R.Nodup ∧ 0 ∉ R ∧ nextChain s R ∧ prevPairs s R ∧ headPrevOutside s R

theorem nextChain_head (s : IntrusiveList) (a : Nat) (rest : List Nat)
    (h : nextChain s (a :: rest)) : s.next a = rest.headD 0 := by
  cases rest with
  | nil => exact h
  | cons b r2 => exact h.1

theorem nextChain_congr (s s2 : IntrusiveList) (R : List Nat)
    (h : ∀ x ∈ R, s2.next x = s.next x) :
    nextChain s R → nextChain s2 R := by
  induction R with
  | nil => intro _; trivial
  | cons a rest ih =>
    cases rest with
    | nil =>
      intro hc
      show s2.next a = 0
      rw [h a (List.mem_cons_self a [])]
      exact hc
    | cons b r2 =>
      intro hc
      refine ⟨?_, ih (fun x hx => h x (List.mem_cons_of_mem a hx)) hc.2⟩
      rw [h a (List.mem_cons_self a (b :: r2))]
      exact hc.1

theorem prevPairs_congr (s s2 : IntrusiveList) (R : List Nat)
    (h : ∀ y ∈ R.tail, s2.prev y = s.prev y) :
    prevPairs s R → prevPairs s2 R := by
  induction R with
  | nil => intro _; trivial
  | cons a rest ih =>
    cases rest with
    | nil => intro _; trivial
    | cons b r2 =>
      intro hc
      refine ⟨?_, ih (fun y hy => h y (List.mem_cons_of_mem b hy)) hc.2⟩
      rw [h b (List.mem_cons_self b r2)]
      exact hc.1

theorem listSeg_tail (s : IntrusiveList) (a : Nat) (rest : List Nat)
    (h : ListSeg s (a :: rest)) : ListSeg s rest := by
  obtain ⟨hnd, h0, hnext, hprev, _⟩ := h
  refine ⟨(List.nodup_cons.mp hnd).2,
    fun hm => h0 (List.mem_cons_of_mem a hm), ?_, ?_, ?_⟩
  · cases rest with
    | nil => trivial
    | cons b r2 => exact hnext.2
  · cases rest with
    | nil => trivial
    | cons b r2 => exact hprev.2
  · cases rest with
    | nil => trivial
    | cons b r2 =>
      show s.prev b ∉ b :: r2
      rw [hprev.1]
      exact (List.nodup_cons.mp hnd).1

theorem listSeg_unlink (s : IntrusiveList) (a : Nat) (rest : List Nat)
    (h : ListSeg s (a :: rest)) : ListSeg (unlink s a) rest := by
  obtain ⟨hnd, h0, hnext, hprev, hhead⟩ := h
  have hp : s.prev a ∉ a :: rest := hhead
  obtain ⟨hnd2, h02, hnext2, hprev2, hhead2⟩ :=
    listSeg_tail s a rest ⟨hnd, h0, hnext, hprev, hhead⟩
  refine ⟨hnd2, h02, ?_, ?_, ?_⟩
  · refine nextChain_congr s _ rest ?_ hnext2
    intro x hx
    show (if x = s.prev a then s.next a else s.next x) = s.next x
    rw [if_neg]
    intro hxe
    exact hp (hxe ▸ List.mem_cons_of_mem a hx)
  · refine prevPairs_congr s _ rest ?_ hprev2
    intro y hy
    have hne : y ≠ s.next a := by
      cases rest with
      | nil => simp at hy
      | cons b r2 =>
        rw [hnext.1]
        intro hye
        exact (List.nodup_cons.mp hnd2).1 (hye ▸ hy)
    show (if y = s.next a then s.prev a else s.prev y) = s.prev y
    rw [if_neg hne]
  · cases rest with
    | nil => trivial
    | cons b r2 =>
      show (if b = s.next a then s.prev a else s.prev b) ∉ b :: r2
      have heq : (if b = s.next a then s.prev a else s.prev b)
          = s.prev a := by
        rw [hnext.1]
        exact if_pos rfl
      rw [heq]
      intro hmem
      exact hp (List.mem_cons_of_mem a hmem)

theorem listSeg_step (u : Nat → Bool) (s : IntrusiveList) (a : Nat)
    (rest : List Nat) (h : ListSeg s (a :: rest)) :
    ListSeg (applyCancelCb u s a) rest := by
  unfold applyCancelCb
  by_cases hu : u a = true
  · rw [if_pos hu]
    exact listSeg_unlink s a rest h
  · rw [if_neg hu]
    exact listSeg_tail s a rest h

theorem runCancelLoop_visits (u : Nat → Bool) (R : List Nat) :
    ∀ (s : IntrusiveList) (fuel : Nat), ListSeg s R → R.length ≤ fuel →
      RunCancelCallbacksLoop u fuel s (R.headD 0) = R := by
  induction R with
  | nil =>
    intro s fuel _ _
    cases fuel with
    | zero => rfl
    | succ f => rfl
  | cons a rest ih =>
    intro s fuel hseg hfuel
    obtain ⟨hnd, h0, hnext, hprev, hhead⟩ := hseg
    cases fuel with
    | zero => simp at hfuel
    | succ f =>
      have ha0 : ¬ a = 0 := by
        intro h
        exact h0 (h ▸ List.mem_cons_self a rest)
      show (if a = 0 then [] else
          a :: RunCancelCallbacksLoop u f (applyCancelCb u s a) (s.next a))
        = a :: rest
      rw [if_neg ha0, nextChain_head s a rest hnext]
      congr 1
      exact ih (applyCancelCb u s a) f
        (listSeg_step u s a rest ⟨hnd, h0, hnext, hprev, hhead⟩)
        (Nat.le_of_succ_le_succ hfuel)

/-- C10: because the loop saves each node's `next` pointer before
invoking its callback, a callback that unlinks its own registration node
does not break the traversal: for any assignment `u` of which callbacks
self-unlink, every node linked in the list at the start of dispatch is
invoked, in list order, exactly once. -/
theorem run_cancel_callbacks_visits_all (u : Nat → Bool)
    (s : IntrusiveList) (L : List Nat) (fuel : Nat) (hseg : ListSeg s L)
    (hhead : s.next 0 = L.headD 0) (hfuel : L.length ≤ fuel) :
    RunCancelCallbacks u fuel s = L ∧
    ∀ n ∈ L, (RunCancelCallbacks u fuel s).count n = 1 := by
  have hrun : RunCancelCallbacks u fuel s = L := by
    unfold RunCancelCallbacks
    rw [hhead]
    exact runCancelLoop_visits u L s fuel hseg hfuel
  refine ⟨hrun, ?_⟩
  intro n hn
  rw [hrun]
  exact List.count_eq_one_of_mem hseg.1 hn

/-- A concrete two-node cancel-callback list: sentinel `0`, nodes `1`
and `2`. -/
def sampleCancelList : IntrusiveList :=
  { next := fun m => if m = 0 then 1 else if m = 1 then 2 else 0,
    prev := fun m => if m = 2 then 1 else 0 }

/-- Witness for `run_cancel_callbacks_visits_all`: the first callback
unlinks its own node, yet both callbacks run exactly once. -/
theorem run_cancel_callbacks_visits_all_witness :
    RunCancelCallbacks (fun n => n == 1) 2 sampleCancelList = [1, 2] ∧
    ∀ n ∈ [1, 2],
      (RunCancelCallbacks (fun n => n == 1) 2 sampleCancelList).count n
        = 1 :=
  run_cancel_callbacks_visits_all (fun n => n == 1) sampleCancelList
    [1, 2] 2
    ⟨by decide, by decide, ⟨rfl, rfl⟩, ⟨rfl, trivial⟩,
      show sampleCancelList.prev 1 ∉ [1, 2] by decide⟩
    rfl (by decide)

end TensorstoreFuture
